import Mathlib

/-!
Verification of the hybrid prediction engine and recommendation deriver of the
AI-health-Analyzer repository (`src/prediction_engine.py`, `src/recommendation.py`).

Modelling conventions (shallow embedding):
* Python strings are modelled as `String` / `List Char`; the Python text operations
  (`str.lower`, `str.strip`, `str.replace`, `re.sub` character classes `\w`/`\s`) are
  modelled on their ASCII fragment, which is the fragment the catalog data and all
  keyword tables of the program use.
* Python floats are modelled as exact rationals (`ℚ`); `round(x, 2)` is modelled as
  round-half-to-even at two decimal places, Python's documented rounding mode.
* `pandas` rows are modelled as a `DiseaseRecord` structure, the data frame as a
  `List DiseaseRecord` in catalog order.
* The numeric outputs of the two scikit-learn models (the cosine-similarity vector of
  `calculate_similarity_scores` and the probability vector of `model.predict_proba`)
  enter the embedded functions as explicit `List ℚ` arguments: the selection, filtering,
  ranking and merging logic applied to them is translated from the source line by line.
* `np.argsort` (ascending, equal keys kept in index order as numpy's sort does on the
  small arrays involved) followed by `[::-1]` is modelled by a stable ascending
  insertion argsort followed by `List.reverse`.
* Python dictionaries are modelled as association lists in insertion order: assignment
  to a present key updates the entry in place, assignment to an absent key appends.
* Code paths on which Python raises (`KeyError` on an unknown severity) are modelled
  with `Option`, `none` standing for the exception.
-/

namespace HealthAnalyzer

/-! ## ASCII model of the Python text primitives -/

/-- The characters Python's `str.strip()` removes, restricted to ASCII. -/
def isPySpace (c : Char) : Bool :=
  c = ' ' || c = '\t' || c = '\n' || c = '\r' || c = '\x0b' || c = '\x0c'

/-- The regex class `\w` of `re.sub(r'[^\w\s]', '', ...)`, restricted to ASCII:
letters, digits and underscore. -/
def isPyWord (c : Char) : Bool :=
  ('a' ≤ c && c ≤ 'z') || ('A' ≤ c && c ≤ 'Z') || ('0' ≤ c && c ≤ '9') || c = '_'

/-- The ASCII uppercase/lowercase letter pairs, used to model `str.lower()`. -/
def upperLowerPairs : List (Char × Char) :=
  [('A', 'a'), ('B', 'b'), ('C', 'c'), ('D', 'd'), ('E', 'e'), ('F', 'f'), ('G', 'g'),
   ('H', 'h'), ('I', 'i'), ('J', 'j'), ('K', 'k'), ('L', 'l'), ('M', 'm'), ('N', 'n'),
   ('O', 'o'), ('P', 'p'), ('Q', 'q'), ('R', 'r'), ('S', 's'), ('T', 't'), ('U', 'u'),
   ('V', 'v'), ('W', 'w'), ('X', 'x'), ('Y', 'y'), ('Z', 'z')]

/-- `str.lower()` on a single character (ASCII fragment). -/
def pyLowerChar (c : Char) : Char :=
  ((upperLowerPairs.find? (fun p => p.1 == c)).map Prod.snd).getD c

/-- `str.strip()` from the left. -/
def pyStrip (l : List Char) : List Char :=
  ((l.dropWhile isPySpace).reverse.dropWhile isPySpace).reverse

/-- `str.strip()` on a `String`. -/
def pyStripStr (s : String) : String :=
  ⟨pyStrip s.data⟩

/-- `HealthPredictor.preprocess_symptoms` (prediction_engine.py lines 32-39) on the
character list of the input string: replace every `';'` by a space, lowercase, strip,
then delete every character that is neither a word character nor whitespace. -/
def preprocess_symptoms (s : List Char) : List Char :=
  let replaced := s.map (fun c => if c = ';' then ' ' else c)
  let stripped := pyStrip (replaced.map pyLowerChar)
  stripped.filter (fun c => isPyWord c || isPySpace c)

/-! ### Helper lemmas about the text primitives -/

theorem pyLowerChar_eq_of_find {c : Char} {p : Char × Char}
    (h : upperLowerPairs.find? (fun q => q.1 == c) = some p) : pyLowerChar c = p.2 := by
  simp [pyLowerChar, h]

theorem pyLowerChar_eq_of_none {c : Char}
    (h : upperLowerPairs.find? (fun q => q.1 == c) = none) : pyLowerChar c = c := by
  simp [pyLowerChar, h]

theorem pyLower_value_not_key :
    ∀ p ∈ upperLowerPairs, upperLowerPairs.find? (fun q => q.1 == p.2) = none := by
  decide

theorem pyLowerChar_idem (c : Char) : pyLowerChar (pyLowerChar c) = pyLowerChar c := by
  cases h : upperLowerPairs.find? (fun q => q.1 == c) with
  | none => simp only [pyLowerChar_eq_of_none h]
  | some p =>
    rw [pyLowerChar_eq_of_find h,
      pyLowerChar_eq_of_none (pyLower_value_not_key p (List.mem_of_find?_eq_some h))]

theorem map_id_of_mem {α : Type} {f : α → α} {l : List α} (h : ∀ a ∈ l, f a = a) :
    l.map f = l := by
  induction l with
  | nil => rfl
  | cons x xs ih =>
    simp only [List.map_cons, h x (List.mem_cons_self x xs)]
    rw [ih (fun a ha => h a (List.mem_cons_of_mem x ha))]

theorem mem_of_mem_pyStrip {c : Char} {l : List Char} (h : c ∈ pyStrip l) : c ∈ l := by
  unfold pyStrip at h
  rw [List.mem_reverse] at h
  have h2 := (List.dropWhile_sublist (l := (l.dropWhile isPySpace).reverse)
    (p := isPySpace)).mem h
  rw [List.mem_reverse] at h2
  exact (List.dropWhile_sublist (l := l) (p := isPySpace)).mem h2

theorem preprocess_output_chars (s : List Char) :
    ∀ c ∈ preprocess_symptoms s, ((isPyWord c || isPySpace c) = true) ∧ pyLowerChar c = c := by
  intro c hc
  unfold preprocess_symptoms at hc
  rw [List.mem_filter] at hc
  refine ⟨hc.2, ?_⟩
  have hmem := mem_of_mem_pyStrip hc.1
  rcases List.mem_map.mp hmem with ⟨c0, _, heq⟩
  rw [← heq, pyLowerChar_idem]

/-- C4: the normalizer is not idempotent. Counterexample: `"! a"` normalizes to `" a"`
(the `strip()` runs before the punctuation-removing `re.sub`, which exposes a leading
space), and normalizing `" a"` yields `"a"`. -/
theorem C4_counterexample :
    ¬ preprocess_symptoms (preprocess_symptoms "! a".data) =
        preprocess_symptoms "! a".data := by
  decide

/-- C4 (amended): normalizing twice equals stripping the once-normalized string;
`preprocess_symptoms` is idempotent exactly on the inputs whose normal form carries no
leading or trailing whitespace (removing punctuation before an interior space can
expose such whitespace, as in `"! a"`). -/
theorem C4_preprocess_idem_up_to_strip (s : List Char) :
    preprocess_symptoms (preprocess_symptoms s) = pyStrip (preprocess_symptoms s) := by
  have hchars := preprocess_output_chars s
  have hsemi : ∀ c ∈ preprocess_symptoms s, (if c = ';' then ' ' else c) = c := by
    intro c hc
    by_cases h : c = ';'
    · exfalso
      have hw := (hchars c hc).1
      rw [h] at hw
      exact absurd hw (by decide)
    · simp [h]
  set r := preprocess_symptoms s with hr
  show List.filter (fun c => isPyWord c || isPySpace c)
      (pyStrip (List.map pyLowerChar (List.map (fun c => if c = ';' then ' ' else c) r))) =
    pyStrip r
  rw [map_id_of_mem hsemi, map_id_of_mem (fun c hc => (hchars c hc).2)]
  apply List.filter_eq_self.mpr
  intro c hc
  exact (hchars c (mem_of_mem_pyStrip hc)).1

/-! ## Exact rational arithmetic and rounding

`Rat.add`, `Rat.mul` and `Rat.sub` are irreducible, so the embedding uses equivalent
`Rat.divInt`-based operations that the kernel can evaluate on concrete inputs; the
bridge lemmas below identify them with the standard field operations of `ℚ`. -/

def qAdd (a b : ℚ) : ℚ :=
  Rat.divInt (a.num * (b.den : ℤ) + b.num * (a.den : ℤ)) ((a.den : ℤ) * (b.den : ℤ))

def qMul (a b : ℚ) : ℚ :=
  Rat.divInt (a.num * b.num) ((a.den : ℤ) * (b.den : ℤ))

def qSub (a b : ℚ) : ℚ :=
  Rat.divInt (a.num * (b.den : ℤ) - b.num * (a.den : ℤ)) ((a.den : ℤ) * (b.den : ℤ))

theorem qAdd_eq (a b : ℚ) : qAdd a b = a + b := by
  rw [qAdd]
  conv_rhs => rw [← Rat.num_divInt_den a, ← Rat.num_divInt_den b]
  rw [Rat.divInt_add_divInt _ _ (Int.natCast_ne_zero.mpr a.den_nz)
    (Int.natCast_ne_zero.mpr b.den_nz)]

theorem qMul_eq (a b : ℚ) : qMul a b = a * b := by
  rw [qMul]
  conv_rhs => rw [← Rat.num_divInt_den a, ← Rat.num_divInt_den b]
  rw [Rat.divInt_mul_divInt']

theorem qSub_eq (a b : ℚ) : qSub a b = a - b := by
  rw [qSub]
  conv_rhs => rw [← Rat.num_divInt_den a, ← Rat.num_divInt_den b]
  rw [Rat.divInt_sub_divInt _ _ (Int.natCast_ne_zero.mpr a.den_nz)
    (Int.natCast_ne_zero.mpr b.den_nz)]

/-- Python's `round` to an integer: round half to even (banker's rounding) on the
exact rational value. -/
def roundHalfEven (q : ℚ) : ℤ :=
  let f := q.num.fdiv q.den
  let frac := qSub q (Rat.divInt f 1)
  if frac < Rat.divInt 1 2 then f
  else if Rat.divInt 1 2 < frac then f + 1
  else if f % 2 = 0 then f else f + 1

/-- Python's `round(x, 2)`. -/
def round2 (q : ℚ) : ℚ :=
  Rat.divInt (roundHalfEven (qMul q 100)) 100

/-- One row of the catalog data frame (columns of `data/sample_data.csv` as read by
`HealthPredictor.load_data`). -/
structure DiseaseRecord where
  disease : String
  symptoms : String
  severity : String
  precautions : String
  diet_recommendations : String
  description : String
deriving DecidableEq

/-- The prediction dictionaries built by `predict_diseases_similarity`,
`predict_diseases_ml` and `hybrid_prediction`. -/
structure Prediction where
  disease : String
  confidence : ℚ
  severity : String
  precautions : String
  diet_recommendations : String
  description : String
  matched_symptoms : String
deriving DecidableEq

def defaultRecord : DiseaseRecord :=
  ⟨"", "", "", "", "", ""⟩

/-! ## The similarity arm (`predict_diseases_similarity`, lines 66-89)

`np.argsort(similarities)[::-1][:top_n]` is modelled as a stable ascending argsort
(equal values keep ascending index order, as numpy's sort produces on these small
arrays) followed by `List.reverse` and `List.take`. -/

/-- Value of the similarity (or probability) vector at an index. -/
def simVal (sims : List ℚ) (i : ℕ) : ℚ :=
  sims.getD i 0

/-- Insert an index into an ascending argsort list; the inserted index is placed before
the first index holding a value ≥ its own. -/
def insertIdxAsc (sims : List ℚ) (i : ℕ) : List ℕ → List ℕ
  | [] => [i]
  | j :: js => if simVal sims i ≤ simVal sims j then i :: j :: js else j :: insertIdxAsc sims i js

/-- Stable ascending argsort of a vector, modelling `np.argsort`. -/
def argsortAsc (sims : List ℚ) : List ℕ :=
  (List.range sims.length).foldr (insertIdxAsc sims) []

def mkSimPrediction (r : DiseaseRecord) (conf : ℚ) : Prediction :=
  { disease := r.disease, confidence := round2 conf, severity := r.severity,
    precautions := r.precautions, diet_recommendations := r.diet_recommendations,
    description := r.description, matched_symptoms := r.symptoms }

/-- `HealthPredictor.predict_diseases_similarity` as a function of the catalog and of
the cosine-similarity vector computed by `calculate_similarity_scores`: take the
`top_n` indices of the reversed argsort, keep those with similarity strictly greater
than 0, and copy the catalog row's fields, with confidence `similarity * 100` rounded
to 2 decimals. -/
def predict_diseases_similarity (catalog : List DiseaseRecord) (sims : List ℚ)
    (top_n : ℕ) : List Prediction :=
  ((argsortAsc sims).reverse.take top_n).filterMap (fun idx =>
    if 0 < simVal sims idx then
      (catalog[idx]?).map (fun r => mkSimPrediction r (qMul (simVal sims idx) 100))
    else none)

/-- The index sequence whose mapped image is the similarity arm's output. -/
def simRank (sims : List ℚ) (top_n : ℕ) : List ℕ :=
  ((argsortAsc sims).reverse.take top_n).filter (fun i => decide (0 < simVal sims i))

/-! ### Ranking lemmas for the similarity arm -/

/-- Index `i` ranks strictly above index `j` in the code's ordering: larger similarity
first, and on equal similarity the larger (later-catalog) index first. -/
def rankAbove (sims : List ℚ) (i j : ℕ) : Prop :=
  simVal sims j < simVal sims i ∨ (simVal sims i = simVal sims j ∧ j < i)

theorem insertIdxAsc_perm (sims : List ℚ) (i : ℕ) (l : List ℕ) :
    List.Perm (insertIdxAsc sims i l) (i :: l) := by
  induction l with
  | nil => simp [insertIdxAsc]
  | cons j js ih =>
    unfold insertIdxAsc
    by_cases h : simVal sims i ≤ simVal sims j
    · rw [if_pos h]
    · rw [if_neg h]
      exact (ih.cons j).trans (List.Perm.swap i j js)

theorem foldr_insert_perm (sims : List ℚ) (xs acc : List ℕ) :
    List.Perm (xs.foldr (insertIdxAsc sims) acc) (xs ++ acc) := by
  induction xs with
  | nil => simp
  | cons x xs ih =>
    simp only [List.foldr_cons, List.cons_append]
    exact (insertIdxAsc_perm sims x _).trans (ih.cons x)

theorem argsortAsc_perm (sims : List ℚ) :
    List.Perm (argsortAsc sims) (List.range sims.length) := by
  simpa using foldr_insert_perm sims (List.range sims.length) []

theorem insertIdxAsc_sorted (sims : List ℚ) (i : ℕ) (l : List ℕ)
    (hl : l.Pairwise (fun a b => rankAbove sims b a))
    (him : ∀ j ∈ l, i < j) :
    (insertIdxAsc sims i l).Pairwise (fun a b => rankAbove sims b a) := by
  induction l with
  | nil => simp [insertIdxAsc]
  | cons j js ih =>
    rw [List.pairwise_cons] at hl
    obtain ⟨hj, hjs⟩ := hl
    unfold insertIdxAsc
    by_cases h : simVal sims i ≤ simVal sims j
    · rw [if_pos h]
      refine List.pairwise_cons.mpr ⟨?_, List.pairwise_cons.mpr ⟨hj, hjs⟩⟩
      intro x hx
      rcases List.mem_cons.mp hx with rfl | hx
      · rcases lt_or_eq_of_le h with hlt | heq
        · exact Or.inl hlt
        · exact Or.inr ⟨heq.symm, him x (List.mem_cons_self x js)⟩
      · rcases hj x hx with hlt | ⟨heq, _⟩
        · exact Or.inl (lt_of_le_of_lt h hlt)
        · rcases lt_or_eq_of_le (le_of_le_of_eq h heq.symm) with hlt | heq2
          · exact Or.inl hlt
          · exact Or.inr ⟨heq2.symm, him x (List.mem_cons_of_mem j hx)⟩
    · rw [if_neg h]
      refine List.pairwise_cons.mpr
        ⟨?_, ih hjs (fun a ha => him a (List.mem_cons_of_mem j ha))⟩
      intro x hx
      have hx2 : x ∈ i :: js := (insertIdxAsc_perm sims i js).mem_iff.mp hx
      rcases List.mem_cons.mp hx2 with rfl | hx2
      · exact Or.inl (lt_of_not_le h)
      · exact hj x hx2

theorem argsortAsc_sorted (sims : List ℚ) :
    (argsortAsc sims).Pairwise (fun a b => rankAbove sims b a) := by
  have key : ∀ xs : List ℕ, xs.Pairwise (· < ·) →
      (xs.foldr (insertIdxAsc sims) []).Pairwise (fun a b => rankAbove sims b a) := by
    intro xs hxs
    induction xs with
    | nil => simp
    | cons x xs ih =>
      rw [List.pairwise_cons] at hxs
      simp only [List.foldr_cons]
      refine insertIdxAsc_sorted sims x _ (ih hxs.2) ?_
      intro j hj
      have hmem : j ∈ xs ++ [] := (foldr_insert_perm sims xs []).mem_iff.mp hj
      exact hxs.1 j (by simpa using hmem)
  exact key _ (List.pairwise_lt_range _)

/-- The full descending ranking the code derives from `np.argsort(...)[::-1]`. -/
def rankList (sims : List ℚ) : List ℕ :=
  (argsortAsc sims).reverse

theorem rankList_sorted (sims : List ℚ) :
    (rankList sims).Pairwise (rankAbove sims) := by
  rw [rankList, List.pairwise_reverse]
  exact argsortAsc_sorted sims

theorem rankList_perm (sims : List ℚ) :
    List.Perm (rankList sims) (List.range sims.length) :=
  (List.reverse_perm _).trans (argsortAsc_perm sims)

/-- Whether an index holds a strictly positive similarity. -/
def posIdx (sims : List ℚ) (i : ℕ) : Bool :=
  decide (0 < simVal sims i)

theorem count_take_filter (sims : List ℚ) (r : List ℕ) (n : ℕ)
    (hr : r.Pairwise (fun i j => simVal sims j ≤ simVal sims i)) :
    ((r.take n).filter (posIdx sims)).length = min n (r.filter (posIdx sims)).length := by
  induction r generalizing n with
  | nil => simp
  | cons x r ih =>
    rw [List.pairwise_cons] at hr
    cases n with
    | zero => simp
    | succ n =>
      cases hpx : posIdx sims x with
      | true =>
        simp only [List.take_succ_cons, List.filter_cons, hpx, if_true, List.length_cons]
        rw [ih n hr.2, Nat.succ_min_succ]
      | false =>
        have hzero : ∀ y ∈ r, posIdx sims y = false := by
          intro y hy
          have hxy := hr.1 y hy
          have hx0 : ¬ (0 < simVal sims x) := by
            simpa [posIdx] using hpx
          simp only [posIdx, decide_eq_false_iff_not]
          intro hy0
          exact hx0 (lt_of_lt_of_le hy0 hxy)
        have hfr : r.filter (posIdx sims) = [] := by
          rw [List.filter_eq_nil_iff]
          intro a ha
          simp [hzero a ha]
        have hft : (r.take n).filter (posIdx sims) = [] := by
          rw [List.filter_eq_nil_iff]
          intro a ha
          simp [hzero a ((List.take_sublist n r).mem ha)]
        simp [List.filter_cons, hpx, hfr, hft]

theorem rankAbove_imp_le (sims : List ℚ) {i j : ℕ} (h : rankAbove sims i j) :
    simVal sims j ≤ simVal sims i := by
  rcases h with h | ⟨h, _⟩
  · exact le_of_lt h
  · exact le_of_eq h.symm

theorem countP_range_pos (sims : List ℚ) :
    (List.range sims.length).countP (posIdx sims) =
      sims.countP (fun x => decide (0 < x)) := by
  induction sims with
  | nil => simp
  | cons x xs ih =>
    have hlen : (x :: xs).length = xs.length + 1 := rfl
    rw [hlen, List.range_succ_eq_map, List.countP_cons, List.countP_map]
    have hcomp : (posIdx (x :: xs)) ∘ Nat.succ = posIdx xs := by
      funext i
      rfl
    have hhead : posIdx (x :: xs) 0 = decide (0 < x) := rfl
    rw [hcomp, ih, hhead, List.countP_cons]

theorem length_filter_rankList (sims : List ℚ) :
    ((rankList sims).filter (posIdx sims)).length =
      sims.countP (fun x => decide (0 < x)) := by
  rw [← List.countP_eq_length_filter, (rankList_perm sims).countP_eq, countP_range_pos]

theorem filterMap_sim_eq_map (catalog : List DiseaseRecord) (sims : List ℚ)
    (l : List ℕ) (hl : ∀ i ∈ l, i < catalog.length) :
    l.filterMap (fun idx =>
        if 0 < simVal sims idx then
          (catalog[idx]?).map (fun r => mkSimPrediction r (qMul (simVal sims idx) 100))
        else none) =
      (l.filter (posIdx sims)).map (fun idx =>
        mkSimPrediction (catalog.getD idx defaultRecord) (qMul (simVal sims idx) 100)) := by
  induction l with
  | nil => rfl
  | cons i l ih =>
    have hi : i < catalog.length := hl i (List.mem_cons_self i l)
    have hrest := ih (fun a ha => hl a (List.mem_cons_of_mem i ha))
    rw [List.filterMap_cons, List.filter_cons]
    by_cases hp : 0 < simVal sims i
    · rw [if_pos hp]
      have hpos : posIdx sims i = true := by
        simp [posIdx, hp]
      rw [hpos, if_pos rfl, List.getElem?_eq_getElem hi]
      simp only [Option.map_some, List.map_cons, hrest]
      rw [List.getD_eq_getElem?_getD, List.getElem?_eq_getElem hi]
      rfl
    · rw [if_neg hp]
      have hpos : posIdx sims i = false := by
        simp [posIdx, hp]
      rw [hpos]
      simpa using hrest

theorem mem_rankList_lt (sims : List ℚ) {i : ℕ} (h : i ∈ rankList sims) :
    i < sims.length := by
  have := (rankList_perm sims).mem_iff.mp h
  exact List.mem_range.mp this

theorem predict_similarity_eq_map (catalog : List DiseaseRecord) (sims : List ℚ)
    (top_n : ℕ) (hlen : sims.length = catalog.length) :
    predict_diseases_similarity catalog sims top_n =
      (simRank sims top_n).map (fun idx =>
        mkSimPrediction (catalog.getD idx defaultRecord) (qMul (simVal sims idx) 100)) := by
  unfold predict_diseases_similarity simRank
  refine filterMap_sim_eq_map catalog sims _ ?_
  intro i hi
  have : i ∈ rankList sims := (List.take_sublist _ _).mem hi
  rw [← hlen]
  exact mem_rankList_lt sims this

theorem simRank_subset_take (sims : List ℚ) (top_n : ℕ) {i : ℕ}
    (h : i ∈ simRank sims top_n) : i ∈ (rankList sims).take top_n :=
  (List.filter_sublist _).mem h

/-- C5 (amended): the similarity arm returns exactly the entries with similarity
strictly greater than 0 among the `top_n` highest-ranked indices, sorted descending by
similarity — but equal similarities are ranked in REVERSE catalog order (the
later-catalog entry first), because `np.argsort(...)[::-1]` reverses the stable
ascending argsort. Conjuncts: output as a map over the emitted index sequence; output
length `= min top_n (number of strictly positive similarities)`; every emitted index
strictly positive; the emitted sequence sorted by `rankAbove` (descending similarity,
ties by descending catalog index); every positive index not emitted ranks below every
emitted one. -/
theorem C5_similarity_ranking (catalog : List DiseaseRecord) (sims : List ℚ)
    (top_n : ℕ) (hlen : sims.length = catalog.length) :
    predict_diseases_similarity catalog sims top_n =
        (simRank sims top_n).map (fun idx =>
          mkSimPrediction (catalog.getD idx defaultRecord) (qMul (simVal sims idx) 100)) ∧
      (predict_diseases_similarity catalog sims top_n).length =
        min top_n (sims.countP (fun x => decide (0 < x))) ∧
      (∀ i ∈ simRank sims top_n, 0 < simVal sims i) ∧
      (simRank sims top_n).Pairwise (rankAbove sims) ∧
      (∀ j, j < sims.length → 0 < simVal sims j → j ∉ simRank sims top_n →
        ∀ i ∈ simRank sims top_n, rankAbove sims i j) := by
  have hmap := predict_similarity_eq_map catalog sims top_n hlen
  have hsorted : (simRank sims top_n).Pairwise (rankAbove sims) :=
    List.Pairwise.sublist ((List.filter_sublist _).trans (List.take_sublist _ _))
      (rankList_sorted sims)
  refine ⟨hmap, ?_, ?_, hsorted, ?_⟩
  · rw [hmap, List.length_map]
    have := count_take_filter sims (rankList sims) top_n
      ((rankList_sorted sims).imp (fun h => rankAbove_imp_le sims h))
    rw [simRank]
    calc (((argsortAsc sims).reverse.take top_n).filter (posIdx sims)).length
        = min top_n ((rankList sims).filter (posIdx sims)).length := this
      _ = min top_n (sims.countP (fun x => decide (0 < x))) := by
          rw [length_filter_rankList]
  · intro i hi
    have := List.of_mem_filter hi
    simpa [posIdx] using this
  · intro j hjlen hjpos hjnot i hi
    have hjrank : j ∈ rankList sims :=
      (rankList_perm sims).mem_iff.mpr (List.mem_range.mpr hjlen)
    have hsplitmem : j ∈ (rankList sims).take top_n ++ (rankList sims).drop top_n := by
      rw [List.take_append_drop]
      exact hjrank
    have hjdrop : j ∈ (rankList sims).drop top_n := by
      rcases List.mem_append.mp hsplitmem with htake | hdrop
      · exfalso
        apply hjnot
        rw [simRank]
        refine List.mem_filter.mpr ⟨htake, ?_⟩
        simp [posIdx, hjpos]
      · exact hdrop
    have hitake : i ∈ (rankList sims).take top_n := simRank_subset_take sims top_n hi
    have hpw : ((rankList sims).take top_n ++ (rankList sims).drop top_n).Pairwise
        (rankAbove sims) := by
      rw [List.take_append_drop]
      exact rankList_sorted sims
    exact (List.pairwise_append.mp hpw).2.2 i hitake j hjdrop

/-! ### Concrete fixtures -/

/-- Two catalog entries with identical symptom sets, so any query is equally similar
to both. -/
def recTwinA : DiseaseRecord :=
  ⟨"Twin A", "fever;cough", "Mild", "Rest", "Fluids", "First twin entry"⟩

def recTwinB : DiseaseRecord :=
  ⟨"Twin B", "fever;cough", "Mild", "Rest", "Fluids", "Second twin entry"⟩

def catalogTwins : List DiseaseRecord :=
  [recTwinA, recTwinB]

def simsTwins : List ℚ :=
  [Rat.divInt 1 2, Rat.divInt 1 2]

/-- C5 counterexample: on a catalog whose two entries have identical symptom sets
(equal cosine similarity 1/2 to the query), the code emits the LATER catalog entry
first — `np.argsort` ascending puts index 0 before index 1 on the tie, and the `[::-1]`
reversal flips them — so the claimed catalog-order (stable) tie-break is false. -/
theorem C5_counterexample :
    (predict_diseases_similarity catalogTwins simsTwins 2).map (fun p => p.disease) =
        ["Twin B", "Twin A"] ∧
      ¬ (predict_diseases_similarity catalogTwins simsTwins 2).map (fun p => p.disease) =
          ["Twin A", "Twin B"] := by
  decide

/-- Witness for `C5_similarity_ranking` at the concrete twins catalog. -/
theorem C5_similarity_ranking_witness :
    simsTwins.length = catalogTwins.length ∧
      (predict_diseases_similarity catalogTwins simsTwins 2 =
          (simRank simsTwins 2).map (fun idx =>
            mkSimPrediction (catalogTwins.getD idx defaultRecord)
              (qMul (simVal simsTwins idx) 100)) ∧
        (predict_diseases_similarity catalogTwins simsTwins 2).length =
          min 2 (simsTwins.countP (fun x => decide (0 < x))) ∧
        (∀ i ∈ simRank simsTwins 2, 0 < simVal simsTwins i) ∧
        (simRank simsTwins 2).Pairwise (rankAbove simsTwins) ∧
        (∀ j, j < simsTwins.length → 0 < simVal simsTwins j → j ∉ simRank simsTwins 2 →
          ∀ i ∈ simRank simsTwins 2, rankAbove simsTwins i j)) :=
  ⟨by decide, C5_similarity_ranking catalogTwins simsTwins 2 (by decide)⟩

/-! ## The classifier arm (`predict_diseases_ml`, lines 91-119)

The trained random forest itself is not part of the repository source; its output
probability vector enters as the `probs` argument, and `labels` is the label encoder's
class list. The selection logic (argsort, reverse, take, threshold 0.01, label
decoding, first-matching-row lookup) is translated from the source. -/

def predict_diseases_ml (catalog : List DiseaseRecord) (labels : List String)
    (probs : List ℚ) (top_n : ℕ) : List Prediction :=
  ((argsortAsc probs).reverse.take top_n).filterMap (fun idx =>
    if Rat.divInt 1 100 < simVal probs idx then
      (labels[idx]?).bind (fun name =>
        (catalog.find? (fun row => row.disease == name)).map (fun r =>
          { disease := name, confidence := round2 (qMul (simVal probs idx) 100),
            severity := r.severity, precautions := r.precautions,
            diet_recommendations := r.diet_recommendations,
            description := r.description, matched_symptoms := r.symptoms }))
    else none)

/-- C10: every candidate emitted by the classifier arm carries the record fields of the
FIRST catalog row whose `Disease` column equals the predicted label — the embedding of
`self.df[self.df['Disease'] == disease_name].iloc[0]` is `List.find?` — so on duplicate
disease names the first row's fields win even if a later row was the training example. -/
theorem C10_ml_first_row_fields (catalog : List DiseaseRecord) (labels : List String)
    (probs : List ℚ) (top_n : ℕ) (c : Prediction)
    (hc : c ∈ predict_diseases_ml catalog labels probs top_n) :
    ∃ r, catalog.find? (fun row => row.disease == c.disease) = some r ∧
      c.severity = r.severity ∧ c.precautions = r.precautions ∧
      c.diet_recommendations = r.diet_recommendations ∧
      c.description = r.description ∧ c.matched_symptoms = r.symptoms := by
  rcases List.mem_filterMap.mp hc with ⟨idx, _, hfn⟩
  by_cases hp : Rat.divInt 1 100 < simVal probs idx
  · rw [if_pos hp] at hfn
    rcases Option.bind_eq_some.mp hfn with ⟨name, _, hmap⟩
    rcases Option.map_eq_some'.mp hmap with ⟨r, hr, hcr⟩
    subst hcr
    exact ⟨r, hr, rfl, rfl, rfl, rfl, rfl⟩
  · rw [if_neg hp] at hfn
    cases hfn

/-- A catalog with two rows sharing the disease name `"Dup"`: the first row is Mild,
the second Severe. -/
def recDupFirst : DiseaseRecord :=
  ⟨"Dup", "fever", "Mild", "Rest", "Fluids", "first row"⟩

def recDupSecond : DiseaseRecord :=
  ⟨"Dup", "chills", "Severe", "Go to ER", "Soup", "second row"⟩

def catalogDup : List DiseaseRecord :=
  [recDupFirst, recDupSecond]

def labelsDup : List String :=
  ["Dup"]

/-- The candidate the classifier arm emits for `catalogDup` with probability 1 on the
only label: it carries the FIRST row's Mild fields. -/
def candDup : Prediction :=
  ⟨"Dup", 100, "Mild", "Rest", "Fluids", "first row", "fever"⟩

/-- Witness for `C10_ml_first_row_fields` on the duplicate-name catalog. -/
theorem C10_ml_first_row_fields_witness :
    candDup ∈ predict_diseases_ml catalogDup labelsDup [(1 : ℚ)] 3 ∧
      ∃ r, catalogDup.find? (fun row => row.disease == candDup.disease) = some r ∧
        candDup.severity = r.severity ∧ candDup.precautions = r.precautions ∧
        candDup.diet_recommendations = r.diet_recommendations ∧
        candDup.description = r.description ∧ candDup.matched_symptoms = r.symptoms :=
  ⟨by decide,
   C10_ml_first_row_fields catalogDup labelsDup [(1 : ℚ)] 3 candDup (by decide)⟩

/-! ## The hybrid ranker (`hybrid_prediction`, lines 121-160)

The Python dictionary `combined_scores` is modelled as an association list in insertion
order: assignment to a present key updates the entry in place, assignment to an absent
key appends; Python's stable `sorted(..., reverse=True)` is modelled by a stable
descending insertion sort. -/

structure ScoreEntry where
  info : Prediction
  score : ℚ
deriving DecidableEq

/-- Does the dictionary contain the key? -/
def keyMem (m : List (String × ScoreEntry)) (k : String) : Bool :=
  m.any (fun e => e.1 == k)

/-- In-place dictionary update: replace the value at key `k` (keeping its position),
leaving other entries untouched. -/
def updMap (k : String) (u : ScoreEntry → ScoreEntry)
    (m : List (String × ScoreEntry)) : List (String × ScoreEntry) :=
  m.map (fun e => if e.1 == k then (e.1, u e.2) else e)

/-- The loop body weighting a similarity prediction (60%): plain dict assignment. -/
def simStep (m : List (String × ScoreEntry)) (p : Prediction) :
    List (String × ScoreEntry) :=
  if keyMem m p.disease then
    updMap p.disease (fun _ => ⟨p, qMul p.confidence (Rat.divInt 6 10)⟩) m
  else m ++ [(p.disease, ⟨p, qMul p.confidence (Rat.divInt 6 10)⟩)]

/-- The loop body weighting an ML prediction (40%): add to the score if the key is
present, otherwise insert the ML prediction's info with the 40% weighted score. -/
def mlStep (m : List (String × ScoreEntry)) (p : Prediction) :
    List (String × ScoreEntry) :=
  if keyMem m p.disease then
    updMap p.disease (fun s => ⟨s.info, qAdd s.score (qMul p.confidence (Rat.divInt 4 10))⟩) m
  else m ++ [(p.disease, ⟨p, qMul p.confidence (Rat.divInt 4 10)⟩)]

/-- The `combined_scores` dictionary after both weighting loops. -/
def combinedMap (simP mlP : List Prediction) : List (String × ScoreEntry) :=
  mlP.foldl mlStep (simP.foldl simStep [])

/-- Stable descending insertion by score (equal scores keep dictionary order),
modelling Python's stable `sorted(..., key=score, reverse=True)`. -/
def insertDesc (x : String × ScoreEntry) :
    List (String × ScoreEntry) → List (String × ScoreEntry)
  | [] => [x]
  | y :: ys => if y.2.score ≤ x.2.score then x :: y :: ys else y :: insertDesc x ys

def sortDesc (l : List (String × ScoreEntry)) : List (String × ScoreEntry) :=
  l.foldr insertDesc []

/-- Merging step of `hybrid_prediction` applied to the outputs of the two arms:
sort the combined dictionary by score descending, truncate to `top_n`, and emit each
entry's stored info with the rounded combined score as confidence. -/
def hybrid_combine (simP mlP : List Prediction) (top_n : ℕ) : List Prediction :=
  ((sortDesc (combinedMap simP mlP)).take top_n).map
    (fun e => { e.2.info with confidence := round2 e.2.score })

/-- `HealthPredictor.hybrid_prediction` as a function of the catalog and the two
model output vectors. -/
def hybrid_prediction (catalog : List DiseaseRecord) (sims : List ℚ)
    (labels : List String) (probs : List ℚ) (top_n : ℕ) : List Prediction :=
  hybrid_combine (predict_diseases_similarity catalog sims top_n)
    (predict_diseases_ml catalog labels probs top_n) top_n

/-- Modelled from the spec: the trained classifier (a scikit-learn random forest whose
fitted state is not part of the repository source) produces at query time "a full
probability distribution over all disease labels" (§4.3) — entries non-negative and
summing to 1 — for every query vector, including the zero vector of a zero-overlap
query. -/
def classifierDistribution (probs : List ℚ) : Prop :=
  (∀ p ∈ probs, 0 ≤ p) ∧ probs.sum = 1

theorem insertDesc_perm (x : String × ScoreEntry) (l : List (String × ScoreEntry)) :
    List.Perm (insertDesc x l) (x :: l) := by
  induction l with
  | nil => simp [insertDesc]
  | cons y ys ih =>
    unfold insertDesc
    by_cases h : y.2.score ≤ x.2.score
    · rw [if_pos h]
    · rw [if_neg h]
      exact (ih.cons y).trans (List.Perm.swap x y ys)

theorem sortDesc_perm (l : List (String × ScoreEntry)) :
    List.Perm (sortDesc l) l := by
  have key : ∀ xs acc : List (String × ScoreEntry),
      List.Perm (xs.foldr insertDesc acc) (xs ++ acc) := by
    intro xs acc
    induction xs with
    | nil => simp
    | cons x xs ih =>
      simp only [List.foldr_cons, List.cons_append]
      exact (insertDesc_perm x _).trans (ih.cons x)
  simpa using key l []

theorem length_mlStep (m : List (String × ScoreEntry)) (p : Prediction) :
    m.length ≤ (mlStep m p).length := by
  unfold mlStep updMap
  by_cases h : keyMem m p.disease
  · rw [if_pos h, List.length_map]
  · rw [if_neg h, List.length_append]
    omega

theorem length_foldl_mlStep (mlP : List Prediction) (m : List (String × ScoreEntry)) :
    m.length ≤ (mlP.foldl mlStep m).length := by
  induction mlP generalizing m with
  | nil => simp
  | cons p ps ih =>
    exact le_trans (length_mlStep m p) (ih (mlStep m p))

theorem simVal_zero (sims : List ℚ) (h0 : ∀ s ∈ sims, s = 0) (i : ℕ) :
    simVal sims i = 0 := by
  rw [simVal, List.getD_eq_getElem?_getD]
  cases hv : sims[i]? with
  | none => rfl
  | some v =>
    have hmem : v ∈ sims := List.getElem?_mem hv
    simp [h0 v hmem]

/-- C1 (amended): on a zero-overlap query (all cosine similarities 0) the SIMILARITY
arm returns the empty list, but `hybrid_prediction` is empty precisely when the
CLASSIFIER arm also emitted no candidate. Since the trained classifier returns a full
probability distribution summing to 1 for every query (see `classifierDistribution`),
on small catalogs some label always clears the 0.01 threshold and `predict` returns
classifier-driven candidates rather than the empty list. -/
theorem C1_zero_overlap (catalog : List DiseaseRecord) (labels : List String)
    (sims probs : List ℚ) (top_n : ℕ)
    (h0 : ∀ s ∈ sims, s = 0) (hn : 0 < top_n) :
    predict_diseases_similarity catalog sims top_n = [] ∧
      (hybrid_prediction catalog sims labels probs top_n = [] ↔
        predict_diseases_ml catalog labels probs top_n = []) := by
  have hsim : predict_diseases_similarity catalog sims top_n = [] := by
    unfold predict_diseases_similarity
    rw [List.filterMap_eq_nil_iff]
    intro idx _
    rw [simVal_zero sims h0 idx]
    simp
  refine ⟨hsim, ?_⟩
  rw [hybrid_prediction, hsim]
  constructor
  · intro hemp
    by_contra hml
    rcases List.exists_cons_of_ne_nil hml with ⟨p, ps, hps⟩
    have hlen : 1 ≤ (combinedMap [] (predict_diseases_ml catalog labels probs top_n)).length := by
      rw [combinedMap, hps]
      simp only [List.foldl_nil, List.foldl_cons]
      have h1 : (mlStep [] p).length = 1 := by
        unfold mlStep keyMem
        simp
      calc 1 = (mlStep [] p).length := h1.symm
        _ ≤ _ := length_foldl_mlStep ps (mlStep [] p)
    have hlen2 : 1 ≤ (sortDesc (combinedMap [] (predict_diseases_ml catalog labels probs
        top_n))).length := by
      rw [(sortDesc_perm _).length_eq]
      exact hlen
    have : hybrid_combine [] (predict_diseases_ml catalog labels probs top_n) top_n ≠ [] := by
      rw [hybrid_combine, ← List.length_pos_iff_ne_nil, List.length_map,
        List.length_take]
      omega
    exact this hemp
  · intro hml
    rw [hybrid_combine, hml]
    simp [combinedMap, sortDesc]

/-- The zero similarity vector of a two-entry catalog. -/
def simsZero : List ℚ :=
  [0, 0]

def labelsTwins : List String :=
  ["Twin A", "Twin B"]

/-- A legitimate classifier output on the twins catalog: probability 1/2 for each of
the two labels. -/
def probsTwins : List ℚ :=
  [Rat.divInt 1 2, Rat.divInt 1 2]

/-- C1 counterexample: on a zero-overlap query (similarity vector all zeros) against
the two-disease twins catalog, with the classifier emitting the uniform distribution
(a valid full probability distribution per the spec's classifier contract),
`hybrid_prediction` returns classifier candidates — NOT the empty list the claim
requires. -/
theorem C1_counterexample :
    classifierDistribution probsTwins ∧
      ¬ hybrid_prediction catalogTwins simsZero labelsTwins probsTwins 3 = [] := by
  constructor
  · constructor
    · intro p hp
      rcases List.mem_cons.mp hp with rfl | hp
      · norm_num [Rat.divInt_eq_div]
      · rcases List.mem_cons.mp hp with rfl | hp
        · norm_num [Rat.divInt_eq_div]
        · cases hp
    · show Rat.divInt 1 2 + (Rat.divInt 1 2 + 0) = 1
      norm_num [Rat.divInt_eq_div]
  · decide

/-- Witness for `C1_zero_overlap` at the twins catalog with the uniform classifier
distribution. -/
theorem C1_zero_overlap_witness :
    (∀ s ∈ simsZero, s = 0) ∧ 0 < 3 ∧
      (predict_diseases_similarity catalogTwins simsZero 3 = [] ∧
        (hybrid_prediction catalogTwins simsZero labelsTwins probsTwins 3 = [] ↔
          predict_diseases_ml catalogTwins labelsTwins probsTwins 3 = [])) :=
  ⟨by decide, by decide,
   C1_zero_overlap catalogTwins labelsTwins simsZero probsTwins 3 (by decide) (by decide)⟩

/-! ### Dictionary lookup lemmas for the hybrid ranker -/

/-- First-match lookup in the association list (proof artifact; the embedding itself
only uses `keyMem`/`updMap`). -/
def alookup (k : String) : List (String × ScoreEntry) → Option ScoreEntry
  | [] => none
  | e :: m => if e.1 == k then some e.2 else alookup k m

theorem alookup_none_iff_keyMem (k : String) (m : List (String × ScoreEntry)) :
    alookup k m = none ↔ keyMem m k = false := by
  induction m with
  | nil => simp [alookup, keyMem]
  | cons e m ih =>
    unfold alookup
    by_cases h : e.1 == k
    · simp [keyMem, h]
    · rw [if_neg h, ih]
      simp [keyMem, h]

theorem alookup_cons (k : String) (e : String × ScoreEntry)
    (m : List (String × ScoreEntry)) :
    alookup k (e :: m) = if e.1 == k then some e.2 else alookup k m :=
  rfl

theorem alookup_updMap_self (k : String) (u : ScoreEntry → ScoreEntry)
    (m : List (String × ScoreEntry)) :
    alookup k (updMap k u m) = (alookup k m).map u := by
  unfold updMap
  induction m with
  | nil => rfl
  | cons e m ih =>
    rw [List.map_cons]
    by_cases h : e.1 == k
    · rw [if_pos h, alookup_cons, alookup_cons]
      simp [h]
    · rw [if_neg h, alookup_cons, alookup_cons, if_neg h, if_neg h]
      exact ih

theorem alookup_updMap_other (k k' : String) (hk : k' ≠ k)
    (u : ScoreEntry → ScoreEntry) (m : List (String × ScoreEntry)) :
    alookup k' (updMap k u m) = alookup k' m := by
  unfold updMap
  induction m with
  | nil => rfl
  | cons e m ih =>
    rw [List.map_cons]
    by_cases h : e.1 == k
    · have he : e.1 = k := eq_of_beq h
      have hfalse : (e.1 == k') = false := by
        rw [he]
        exact beq_eq_false_iff_ne.mpr (fun hkk => hk hkk.symm)
      rw [if_pos h, alookup_cons, alookup_cons]
      have h2 : ¬ ((e.1 == k') = true) := by
        simp [hfalse]
      simp only [if_neg h2]
      exact ih
    · rw [if_neg h, alookup_cons, alookup_cons]
      by_cases h2 : e.1 == k'
      · simp [h2]
      · simp only [if_neg h2]
        exact ih

theorem alookup_append_single (k : String) (m : List (String × ScoreEntry))
    (e : String × ScoreEntry) :
    alookup k (m ++ [e]) =
      match alookup k m with
      | some v => some v
      | none => if e.1 == k then some e.2 else none := by
  induction m with
  | nil => rfl
  | cons f m ih =>
    simp only [List.cons_append]
    unfold alookup
    by_cases h : f.1 == k
    · simp [h]
    · simp only [if_neg h]
      exact ih

theorem alookup_simStep_self (m : List (String × ScoreEntry)) (p : Prediction) :
    alookup p.disease (simStep m p) =
      some ⟨p, qMul p.confidence (Rat.divInt 6 10)⟩ := by
  unfold simStep
  by_cases h : keyMem m p.disease
  · rw [if_pos h, alookup_updMap_self]
    cases hl : alookup p.disease m with
    | none => exact absurd ((alookup_none_iff_keyMem _ _).mp hl) (by simp [h])
    | some v => rfl
  · rw [if_neg h, alookup_append_single]
    rw [(alookup_none_iff_keyMem _ _).mpr (by simpa using h)]
    simp

theorem alookup_simStep_other (m : List (String × ScoreEntry)) (p : Prediction)
    (k : String) (hk : k ≠ p.disease) :
    alookup k (simStep m p) = alookup k m := by
  unfold simStep
  by_cases h : keyMem m p.disease
  · rw [if_pos h, alookup_updMap_other _ _ hk]
  · rw [if_neg h, alookup_append_single]
    have : (p.disease == k) = false := beq_eq_false_iff_ne.mpr (fun hkk => hk hkk.symm)
    cases hl : alookup k m with
    | none => simp [this]
    | some v => rfl

theorem alookup_mlStep_self (m : List (String × ScoreEntry)) (p : Prediction) :
    alookup p.disease (mlStep m p) =
      some (match alookup p.disease m with
            | some s => ⟨s.info, qAdd s.score (qMul p.confidence (Rat.divInt 4 10))⟩
            | none => ⟨p, qMul p.confidence (Rat.divInt 4 10)⟩) := by
  unfold mlStep
  by_cases h : keyMem m p.disease
  · rw [if_pos h, alookup_updMap_self]
    cases hl : alookup p.disease m with
    | none => exact absurd ((alookup_none_iff_keyMem _ _).mp hl) (by simp [h])
    | some v => rfl
  · rw [if_neg h, alookup_append_single]
    rw [(alookup_none_iff_keyMem _ _).mpr (by simpa using h)]
    simp

theorem alookup_mlStep_other (m : List (String × ScoreEntry)) (p : Prediction)
    (k : String) (hk : k ≠ p.disease) :
    alookup k (mlStep m p) = alookup k m := by
  unfold mlStep
  by_cases h : keyMem m p.disease
  · rw [if_pos h, alookup_updMap_other _ _ hk]
  · rw [if_neg h, alookup_append_single]
    have : (p.disease == k) = false := beq_eq_false_iff_ne.mpr (fun hkk => hk hkk.symm)
    cases hl : alookup k m with
    | none => simp [this]
    | some v => rfl

theorem alookup_foldl_simStep_not_mem (simP : List Prediction)
    (m : List (String × ScoreEntry)) (k : String)
    (hk : ∀ p ∈ simP, p.disease ≠ k) :
    alookup k (simP.foldl simStep m) = alookup k m := by
  induction simP generalizing m with
  | nil => rfl
  | cons p ps ih =>
    rw [List.foldl_cons, ih _ (fun q hq => hk q (List.mem_cons_of_mem p hq)),
      alookup_simStep_other _ _ _ (fun h => hk p (List.mem_cons_self p ps) h.symm)]

theorem alookup_foldl_mlStep_not_mem (mlP : List Prediction)
    (m : List (String × ScoreEntry)) (k : String)
    (hk : ∀ p ∈ mlP, p.disease ≠ k) :
    alookup k (mlP.foldl mlStep m) = alookup k m := by
  induction mlP generalizing m with
  | nil => rfl
  | cons p ps ih =>
    rw [List.foldl_cons, ih _ (fun q hq => hk q (List.mem_cons_of_mem p hq)),
      alookup_mlStep_other _ _ _ (fun h => hk p (List.mem_cons_self p ps) h.symm)]

theorem alookup_foldl_simStep_mem (simP : List Prediction) (p : Prediction)
    (hp : p ∈ simP) (hnd : (simP.map (fun q => q.disease)).Nodup)
    (m : List (String × ScoreEntry)) :
    alookup p.disease (simP.foldl simStep m) =
      some ⟨p, qMul p.confidence (Rat.divInt 6 10)⟩ := by
  induction simP generalizing m with
  | nil => cases hp
  | cons q qs ih =>
    rw [List.map_cons, List.nodup_cons] at hnd
    rcases List.mem_cons.mp hp with rfl | hp
    · rw [List.foldl_cons,
        alookup_foldl_simStep_not_mem qs _ _
          (fun r hr hdis => hnd.1 (List.mem_map.mpr ⟨r, hr, hdis⟩)),
        alookup_simStep_self]
    · rw [List.foldl_cons]
      exact ih hp hnd.2 _

theorem alookup_foldl_mlStep_mem (mlP : List Prediction) (p : Prediction)
    (hp : p ∈ mlP) (hnd : (mlP.map (fun q => q.disease)).Nodup)
    (m : List (String × ScoreEntry)) :
    alookup p.disease (mlP.foldl mlStep m) =
      some (match alookup p.disease m with
            | some s => ⟨s.info, qAdd s.score (qMul p.confidence (Rat.divInt 4 10))⟩
            | none => ⟨p, qMul p.confidence (Rat.divInt 4 10)⟩) := by
  induction mlP generalizing m with
  | nil => cases hp
  | cons q qs ih =>
    rw [List.map_cons, List.nodup_cons] at hnd
    rcases List.mem_cons.mp hp with rfl | hp
    · rw [List.foldl_cons,
        alookup_foldl_mlStep_not_mem qs _ _
          (fun r hr hdis => hnd.1 (List.mem_map.mpr ⟨r, hr, hdis⟩)),
        alookup_mlStep_self]
    · rw [List.foldl_cons]
      have hne : p.disease ≠ q.disease := by
        intro hdis
        exact hnd.1 (List.mem_map.mpr ⟨p, hp, hdis⟩)
      rw [ih hp hnd.2 (mlStep m q), alookup_mlStep_other _ _ _ hne]

theorem alookup_combinedMap_both (simP mlP : List Prediction) (sp mp : Prediction)
    (hsp : sp ∈ simP) (hmp : mp ∈ mlP) (hd : mp.disease = sp.disease)
    (hndS : (simP.map (fun q => q.disease)).Nodup)
    (hndM : (mlP.map (fun q => q.disease)).Nodup) :
    alookup sp.disease (combinedMap simP mlP) =
      some ⟨sp, qAdd (qMul sp.confidence (Rat.divInt 6 10))
        (qMul mp.confidence (Rat.divInt 4 10))⟩ := by
  rw [combinedMap]
  have h1 := alookup_foldl_mlStep_mem mlP mp hmp hndM (simP.foldl simStep [])
  rw [hd] at h1
  rw [h1, alookup_foldl_simStep_mem simP sp hsp hndS]

theorem alookup_combinedMap_simOnly (simP mlP : List Prediction) (sp : Prediction)
    (hsp : sp ∈ simP) (hndS : (simP.map (fun q => q.disease)).Nodup)
    (hnot : ∀ mp ∈ mlP, mp.disease ≠ sp.disease) :
    alookup sp.disease (combinedMap simP mlP) =
      some ⟨sp, qMul sp.confidence (Rat.divInt 6 10)⟩ := by
  rw [combinedMap, alookup_foldl_mlStep_not_mem mlP _ _ hnot,
    alookup_foldl_simStep_mem simP sp hsp hndS]

theorem alookup_combinedMap_mlOnly (simP mlP : List Prediction) (mp : Prediction)
    (hmp : mp ∈ mlP) (hndM : (mlP.map (fun q => q.disease)).Nodup)
    (hnot : ∀ sp ∈ simP, sp.disease ≠ mp.disease) :
    alookup mp.disease (combinedMap simP mlP) =
      some ⟨mp, qMul mp.confidence (Rat.divInt 4 10)⟩ := by
  rw [combinedMap, alookup_foldl_mlStep_mem mlP mp hmp hndM,
    alookup_foldl_simStep_not_mem simP _ _ hnot]
  rfl

/-- Every entry of the dictionary stores an info record whose disease equals its key. -/
def keyInv (m : List (String × ScoreEntry)) : Prop :=
  ∀ e ∈ m, e.2.info.disease = e.1

theorem keyInv_simStep (m : List (String × ScoreEntry)) (p : Prediction)
    (h : keyInv m) : keyInv (simStep m p) := by
  unfold simStep
  by_cases hk : keyMem m p.disease
  · rw [if_pos hk]
    intro e he
    rcases List.mem_map.mp he with ⟨f, hf, rfl⟩
    by_cases h2 : f.1 == p.disease
    · simp only [if_pos h2]
      exact (eq_of_beq h2).symm
    · simp only [if_neg h2]
      exact h f hf
  · rw [if_neg hk]
    intro e he
    rcases List.mem_append.mp he with he | he
    · exact h e he
    · rcases List.mem_singleton.mp he with rfl
      rfl

theorem keyInv_mlStep (m : List (String × ScoreEntry)) (p : Prediction)
    (h : keyInv m) : keyInv (mlStep m p) := by
  unfold mlStep
  by_cases hk : keyMem m p.disease
  · rw [if_pos hk]
    intro e he
    rcases List.mem_map.mp he with ⟨f, hf, rfl⟩
    by_cases h2 : f.1 == p.disease
    · simp only [if_pos h2]
      exact h f hf
    · simp only [if_neg h2]
      exact h f hf
  · rw [if_neg hk]
    intro e he
    rcases List.mem_append.mp he with he | he
    · exact h e he
    · rcases List.mem_singleton.mp he with rfl
      rfl

theorem keyInv_combinedMap (simP mlP : List Prediction) :
    keyInv (combinedMap simP mlP) := by
  rw [combinedMap]
  have hsim : ∀ (l : List Prediction) (m), keyInv m → keyInv (l.foldl simStep m) := by
    intro l
    induction l with
    | nil => intro m hm; exact hm
    | cons p ps ih =>
      intro m hm
      exact ih _ (keyInv_simStep m p hm)
  have hml : ∀ (l : List Prediction) (m), keyInv m → keyInv (l.foldl mlStep m) := by
    intro l
    induction l with
    | nil => intro m hm; exact hm
    | cons p ps ih =>
      intro m hm
      exact ih _ (keyInv_mlStep m p hm)
  exact hml mlP _ (hsim simP [] (fun e he => absurd he (List.not_mem_nil e)))

/-- The dictionary's keys are pairwise distinct. -/
def keysNodup (m : List (String × ScoreEntry)) : Prop :=
  (m.map (fun e => e.1)).Nodup

theorem keys_updMap (k : String) (u : ScoreEntry → ScoreEntry)
    (m : List (String × ScoreEntry)) :
    (updMap k u m).map (fun e => e.1) = m.map (fun e => e.1) := by
  unfold updMap
  rw [List.map_map]
  apply List.map_congr_left
  intro e _
  show (if e.1 == k then (e.1, u e.2) else e).1 = e.1
  by_cases h : e.1 == k
  · rw [if_pos h]
  · rw [if_neg h]

theorem not_mem_keys_of_keyMem_false (m : List (String × ScoreEntry)) (k : String)
    (h : keyMem m k = false) : k ∉ m.map (fun e => e.1) := by
  intro hmem
  rcases List.mem_map.mp hmem with ⟨e, he, hek⟩
  have : m.any (fun e => e.1 == k) = true :=
    List.any_eq_true.mpr ⟨e, he, by simp [hek]⟩
  rw [keyMem] at h
  rw [h] at this
  cases this

theorem keysNodup_append_fresh (m : List (String × ScoreEntry)) (k : String)
    (v : ScoreEntry) (hn : keysNodup m) (h : keyMem m k = false) :
    keysNodup (m ++ [(k, v)]) := by
  rw [keysNodup, List.map_append]
  refine List.Nodup.append hn (List.nodup_singleton _) ?_
  intro a ha hb
  rcases List.mem_singleton.mp hb with rfl
  exact not_mem_keys_of_keyMem_false m a h ha

theorem keysNodup_simStep (m : List (String × ScoreEntry)) (p : Prediction)
    (hn : keysNodup m) : keysNodup (simStep m p) := by
  unfold simStep
  by_cases hk : keyMem m p.disease
  · rw [if_pos hk, keysNodup, keys_updMap]
    exact hn
  · rw [if_neg hk]
    exact keysNodup_append_fresh m _ _ hn (by simpa using hk)

theorem keysNodup_mlStep (m : List (String × ScoreEntry)) (p : Prediction)
    (hn : keysNodup m) : keysNodup (mlStep m p) := by
  unfold mlStep
  by_cases hk : keyMem m p.disease
  · rw [if_pos hk, keysNodup, keys_updMap]
    exact hn
  · rw [if_neg hk]
    exact keysNodup_append_fresh m _ _ hn (by simpa using hk)

theorem keysNodup_combinedMap (simP mlP : List Prediction) :
    keysNodup (combinedMap simP mlP) := by
  rw [combinedMap]
  have hsim : ∀ (l : List Prediction) (m), keysNodup m → keysNodup (l.foldl simStep m) := by
    intro l
    induction l with
    | nil => intro m hm; exact hm
    | cons p ps ih =>
      intro m hm
      exact ih _ (keysNodup_simStep m p hm)
  have hml : ∀ (l : List Prediction) (m), keysNodup m → keysNodup (l.foldl mlStep m) := by
    intro l
    induction l with
    | nil => intro m hm; exact hm
    | cons p ps ih =>
      intro m hm
      exact ih _ (keysNodup_mlStep m p hm)
  exact hml mlP _ (hsim simP [] (by simp [keysNodup]))

theorem alookup_of_mem (m : List (String × ScoreEntry)) (hn : keysNodup m)
    (e : String × ScoreEntry) (he : e ∈ m) : alookup e.1 m = some e.2 := by
  induction m with
  | nil => cases he
  | cons f m ih =>
    rw [keysNodup, List.map_cons, List.nodup_cons] at hn
    rcases List.mem_cons.mp he with rfl | he
    · rw [alookup_cons, if_pos (by simp)]
    · have hne : ¬ ((f.1 == e.1) = true) := by
        intro hq
        exact hn.1 ((eq_of_beq hq) ▸ List.mem_map.mpr ⟨e, he, rfl⟩)
      rw [alookup_cons, if_neg hne]
      exact ih hn.2 he

theorem divInt_6_10 : Rat.divInt 6 10 = (6 : ℚ) / 10 := by
  rw [Rat.divInt_eq_div]
  norm_num

theorem divInt_4_10 : Rat.divInt 4 10 = (4 : ℚ) / 10 := by
  rw [Rat.divInt_eq_div]
  norm_num

/-- C3: a candidate emitted by the hybrid combiner for a disease present in both arms
(with the arms' confidences S and C) carries confidence `round2 (0.6*S + 0.4*C)`; a
disease present in exactly one arm gets only that arm's weighted score, rounded, with
no penalty for the missing arm. Stated for arms whose disease names are duplicate-free
(the case produced by a catalog without duplicate names). -/
theorem C3_hybrid_blend (simP mlP : List Prediction) (top_n : ℕ)
    (hndS : (simP.map (fun p => p.disease)).Nodup)
    (hndM : (mlP.map (fun p => p.disease)).Nodup)
    (c : Prediction) (hc : c ∈ hybrid_combine simP mlP top_n) :
    (∀ sp ∈ simP, ∀ mp ∈ mlP, sp.disease = c.disease → mp.disease = c.disease →
        c.confidence = round2 (sp.confidence * (6 / 10) + mp.confidence * (4 / 10))) ∧
      ((∀ mp ∈ mlP, mp.disease ≠ c.disease) → ∀ sp ∈ simP, sp.disease = c.disease →
        c.confidence = round2 (sp.confidence * (6 / 10))) ∧
      ((∀ sp ∈ simP, sp.disease ≠ c.disease) → ∀ mp ∈ mlP, mp.disease = c.disease →
        c.confidence = round2 (mp.confidence * (4 / 10))) := by
  rcases List.mem_map.mp hc with ⟨e, he, hce⟩
  have heM : e ∈ combinedMap simP mlP :=
    (sortDesc_perm _).mem_iff.mp ((List.take_sublist _ _).mem he)
  have hkey : e.2.info.disease = e.1 := keyInv_combinedMap simP mlP e heM
  have hlook : alookup e.1 (combinedMap simP mlP) = some e.2 :=
    alookup_of_mem _ (keysNodup_combinedMap simP mlP) e heM
  have hcdis : c.disease = e.1 := by
    rw [← hce]
    exact hkey
  have hcconf : c.confidence = round2 e.2.score := by
    rw [← hce]
  refine ⟨?_, ?_, ?_⟩
  · intro sp hsp mp hmp hs hm
    have hb := alookup_combinedMap_both simP mlP sp mp hsp hmp (by rw [hm, hs]) hndS hndM
    rw [hs, hcdis, hlook] at hb
    have he2 : e.2 = ⟨sp, qAdd (qMul sp.confidence (Rat.divInt 6 10))
        (qMul mp.confidence (Rat.divInt 4 10))⟩ := by
      injection hb
    rw [hcconf, he2, qAdd_eq, qMul_eq, qMul_eq, divInt_6_10, divInt_4_10]
  · intro hnot sp hsp hs
    have hb := alookup_combinedMap_simOnly simP mlP sp hsp hndS
      (fun mp hmp => fun hq => hnot mp hmp (by rw [hq, hs]))
    rw [hs, hcdis, hlook] at hb
    have he2 : e.2 = ⟨sp, qMul sp.confidence (Rat.divInt 6 10)⟩ := by
      injection hb
    rw [hcconf, he2, qMul_eq, divInt_6_10]
  · intro hnot mp hmp hm
    have hb := alookup_combinedMap_mlOnly simP mlP mp hmp hndM
      (fun sp hsp => fun hq => hnot sp hsp (by rw [hq, hm]))
    rw [hm, hcdis, hlook] at hb
    have he2 : e.2 = ⟨mp, qMul mp.confidence (Rat.divInt 4 10)⟩ := by
      injection hb
    rw [hcconf, he2, qMul_eq, divInt_4_10]

/-- Concrete similarity-arm output: confidence 75 for Twin A. -/
def spBlend : Prediction :=
  ⟨"Twin A", 75, "Mild", "Rest", "Fluids", "First twin entry", "fever;cough"⟩

/-- Concrete classifier-arm output: confidence 50 for Twin A, 40 for Twin B. -/
def mpBlendA : Prediction :=
  ⟨"Twin A", 50, "Mild", "Rest", "Fluids", "First twin entry", "fever;cough"⟩

def mpBlendB : Prediction :=
  ⟨"Twin B", 40, "Mild", "Rest", "Fluids", "Second twin entry", "fever;cough"⟩

/-- The candidate the hybrid combiner emits for Twin A from `[spBlend]` and
`[mpBlendA, mpBlendB]`: score `75*0.6 + 50*0.4 = 65`. -/
def candBlendA : Prediction :=
  ⟨"Twin A", 65, "Mild", "Rest", "Fluids", "First twin entry", "fever;cough"⟩

/-- Witness for `C3_hybrid_blend` on concrete arm outputs. -/
theorem C3_hybrid_blend_witness :
    candBlendA ∈ hybrid_combine [spBlend] [mpBlendA, mpBlendB] 3 ∧
      candBlendA.confidence =
        round2 (spBlend.confidence * (6 / 10) + mpBlendA.confidence * (4 / 10)) :=
  ⟨by decide,
   (C3_hybrid_blend [spBlend] [mpBlendA, mpBlendB] 3 (by decide) (by decide)
      candBlendA (by decide)).1 spBlend (by decide) mpBlendA (by decide) rfl rfl⟩

/-! ## The recommendation deriver (`recommendation.py`)

`HealthRecommendationSystem` holds no mutable state; its methods are embedded as
functions of the prediction list. Paths on which Python raises `KeyError` (an
`overall_severity` outside the three tiers indexing `severity_actions`) are modelled
with `Option`, and `datetime.now()` enters as an explicit `now` argument. -/

structure SeverityInfo where
  urgency : String
  action : String
  timeframe : String
  color : String
deriving DecidableEq

/-- The `severity_actions` table (recommendation.py lines 8-27); `none` models a
`KeyError` on any other key. -/
def severity_actions (s : String) : Option SeverityInfo :=
  if s = "Mild" then
    some ⟨"Low Priority", "Monitor symptoms and try self-care measures",
      "If symptoms persist for more than 3-5 days", "🟢"⟩
  else if s = "Moderate" then
    some ⟨"Medium Priority", "Consider scheduling an appointment with healthcare provider",
      "If symptoms persist for more than 24-48 hours or worsen", "🟡"⟩
  else if s = "Severe" then
    some ⟨"HIGH PRIORITY", "Seek immediate medical attention",
      "Contact healthcare provider immediately or visit emergency room", "🔴"⟩
  else none

def general_health_tips : List String :=
  ["💧 Stay well-hydrated by drinking plenty of water throughout the day",
   "😴 Ensure adequate rest and sleep (7-9 hours for adults)",
   "🏃‍♂️ Maintain light physical activity as tolerated",
   "🧘‍♀️ Practice stress management techniques like meditation or deep breathing",
   "🚭 Avoid smoking and limit alcohol consumption",
   "🧼 Maintain good hygiene practices",
   "🌡️ Monitor your symptoms and track any changes",
   "📱 Keep emergency contacts readily available"]

/-- The dictionary returned by `generate_severity_assessment`; the empty-predictions
branch carries no timeframe key, hence the `Option`. -/
structure SeverityAssessment where
  overall_severity : String
  recommendation : String
  urgency : String
  timeframe : Option String
  color : String
deriving DecidableEq

/-- `severity_priority.get(x, 0)`. -/
def severityPriority (s : String) : ℤ :=
  if s = "Severe" then 3 else if s = "Moderate" then 2 else if s = "Mild" then 1 else 0

/-- Python's `max(xs, key=key)`: the first element attaining the maximal key (`max`
scans left to right and replaces only on a strictly larger key). -/
def pyMaxBy (key : String → ℤ) : List String → Option String
  | [] => none
  | x :: xs => some (xs.foldl (fun best y => if key best < key y then y else best) x)

/-- `HealthRecommendationSystem.generate_severity_assessment` (lines 40-63). -/
def generate_severity_assessment (predictions : List Prediction) :
    Option SeverityAssessment :=
  match predictions with
  | [] =>
    some ⟨"Unknown", "Unable to assess. Please consult a healthcare provider.",
      "Consult healthcare provider", none, "⚪"⟩
  | q :: rest =>
    match pyMaxBy severityPriority ((q :: rest).map (fun p => p.severity)) with
    | none => none
    | some hs =>
      match severity_actions hs with
      | none => none
      | some info => some ⟨hs, info.action, info.urgency, some info.timeframe, info.color⟩

/-- Split a character list at commas, modelling Python's `str.split(',')`. -/
def splitComma : List Char → List (List Char)
  | [] => [[]]
  | c :: rest =>
    match splitComma rest with
    | [] => [[]]
    | g :: gs => if c = ',' then [] :: g :: gs else (c :: g) :: gs

/-- `HealthRecommendationSystem.parse_recommendations` (lines 65-72): split on commas,
strip each piece, drop empties; empty (or missing) text yields `[]`. -/
def parse_recommendations (text : String) : List String :=
  if text = "" then []
  else ((splitComma text.data).map (fun cs => (⟨pyStrip cs⟩ : String))).filter
    (fun r => !(r == ""))

/-- `HealthRecommendationSystem.generate_lifestyle_recommendations` (lines 74-96):
collect each candidate's precautions with a warning-marker prefix (the membership test
compares the UNPREFIXED phrase against the prefixed entries), then extend with 4
general tips for Mild/Moderate overall severity and 2 for anything else. -/
def generate_lifestyle_recommendations (predictions : List Prediction) :
    Option (List String) :=
  match predictions with
  | [] => some []
  | _ =>
    let lifestyle_recs := predictions.foldl (fun acc p =>
      (parse_recommendations p.precautions).foldl (fun acc2 prec =>
        if acc2.contains prec then acc2 else acc2 ++ ["⚠️ " ++ prec]) acc) []
    match generate_severity_assessment predictions with
    | none => none
    | some sa =>
      if sa.overall_severity = "Mild" ∨ sa.overall_severity = "Moderate" then
        some (lifestyle_recs ++ general_health_tips.take 4)
      else
        some (lifestyle_recs ++ general_health_tips.take 2)

def general_dietary_tips : List String :=
  ["🥗 Eat a balanced diet rich in fruits and vegetables",
   "💊 Consider appropriate vitamin supplements if recommended",
   "🍯 Natural remedies like honey and ginger may help with some symptoms",
   "🚫 Avoid foods that may worsen your condition"]

/-- `HealthRecommendationSystem.generate_dietary_recommendations` (lines 98-124). -/
def generate_dietary_recommendations (predictions : List Prediction) : List String :=
  match predictions with
  | [] => []
  | _ =>
    let dietary_recs := predictions.foldl (fun acc p =>
      (parse_recommendations p.diet_recommendations).foldl (fun acc2 r =>
        if acc2.contains r then acc2 else acc2 ++ ["🍽️ " ++ r]) acc) []
    if dietary_recs.length < 3 then dietary_recs ++ general_dietary_tips.take 2
    else dietary_recs

/-- Case-sensitive substring membership, the model of Python's `in` on strings
(applied below to lowercased text). -/
def chStartsWith : List Char → List Char → Bool
  | [], _ => true
  | _ :: _, [] => false
  | a :: as, b :: bs => a == b && chStartsWith as bs

def chContains (needle : List Char) : List Char → Bool
  | [] => chStartsWith needle []
  | c :: rest => chStartsWith needle (c :: rest) || chContains needle rest

def containsSub (hay needle : String) : Bool :=
  chContains needle.data hay.data

def pyLowerStr (s : String) : String :=
  ⟨s.data.map pyLowerChar⟩

def general_warning_signs : List String :=
  ["🚨 Difficulty breathing or shortness of breath",
   "🚨 Chest pain or pressure",
   "🚨 High fever (>103°F/39.4°C)",
   "🚨 Severe dehydration",
   "🚨 Persistent vomiting",
   "🚨 Severe abdominal pain",
   "🚨 Signs of infection (spreading redness, pus)",
   "🚨 Loss of consciousness or confusion"]

def cardiacWarning : String :=
  "🚨 Chest pain radiating to arm, jaw, or back"

def strokeWarning : String :=
  "🚨 Sudden weakness, speech difficulty, or vision problems"

/-- The if/elif keyword chain of `generate_warning_signs` (lines 144-154) for one
candidate's disease name. -/
def specificWarningFor (disease : String) : List String :=
  let d := pyLowerStr disease
  if containsSub d "heart" || containsSub d "cardiac" then [cardiacWarning]
  else if containsSub d "stroke" then [strokeWarning]
  else if containsSub d "asthma" then ["🚨 Severe difficulty breathing or wheezing"]
  else if containsSub d "diabetes" then ["🚨 Extremely high or low blood sugar levels"]
  else []

/-- `list(dict.fromkeys(...))`: de-duplicate keeping first occurrences. -/
def dedup (l : List String) : List String :=
  l.foldl (fun acc s => if acc.contains s then acc else acc ++ [s]) []

/-- `HealthRecommendationSystem.generate_warning_signs` (lines 126-158). -/
def generate_warning_signs (predictions : List Prediction) : List String :=
  match predictions with
  | [] => []
  | _ =>
    let specific_warnings := predictions.foldl
      (fun acc p => acc ++ specificWarningFor p.disease) []
    dedup (specific_warnings ++ general_warning_signs.take 5)

/-- The if/elif keyword chain of `generate_self_care_tips` (lines 172-189) for one
candidate's disease name. -/
def selfCareTipsFor (disease : String) : List String :=
  let d := pyLowerStr disease
  if containsSub d "cold" || containsSub d "flu" then
    ["🤧 Use a humidifier or breathe steam from a hot shower",
     "🍵 Drink warm beverages like tea with honey",
     "🧊 Gargle with warm salt water for sore throat"]
  else if containsSub d "headache" || containsSub d "migraine" then
    ["🌑 Rest in a dark, quiet room",
     "❄️ Apply cold or warm compress to head/neck",
     "💆‍♀️ Try gentle neck and shoulder massage"]
  else if containsSub d "stomach" || containsSub d "gastro" then
    ["🍚 Follow BRAT diet (Bananas, Rice, Applesauce, Toast)",
     "💧 Sip clear fluids frequently",
     "🌡️ Use heating pad on stomach for comfort"]
  else []

def severeSelfCareMsg : String :=
  "⚠️ Seek immediate medical attention - self-care not appropriate for severe conditions"

/-- The accumulation loop of `generate_self_care_tips` (lines 167-194): per candidate
extend the tips with the keyword matches, then, if that candidate is Severe, REPLACE
everything collected so far by the single severe message and break. -/
def selfCareLoop : List Prediction → List String → List String
  | [], acc => acc
  | p :: rest, acc =>
    let tips := acc ++ selfCareTipsFor p.disease
    if p.severity = "Severe" then [severeSelfCareMsg]
    else selfCareLoop rest tips

/-- `HealthRecommendationSystem.generate_self_care_tips` (lines 160-197). -/
def generate_self_care_tips (predictions : List Prediction) : List String :=
  match predictions with
  | [] => []
  | _ => dedup (selfCareLoop predictions [])

/-- `HealthRecommendationSystem.generate_followup_recommendations` (lines 199-226). -/
def generate_followup_recommendations (predictions : List Prediction) :
    Option (List String) :=
  match generate_severity_assessment predictions with
  | none => none
  | some sa =>
    if sa.overall_severity = "Severe" then
      some ["🏥 Seek immediate emergency medical care",
            "📞 Call emergency services if symptoms are life-threatening",
            "👨‍⚕️ Follow up with specialists as recommended"]
    else if sa.overall_severity = "Moderate" then
      some ["📅 Schedule appointment with primary care physician within 24-48 hours",
            "📊 Consider getting relevant tests or screenings",
            "📝 Keep a symptom diary to track changes",
            "💊 Follow prescribed treatment plan if applicable"]
    else
      some ["📋 Monitor symptoms for 3-5 days",
            "📅 Schedule routine check-up if symptoms persist",
            "📱 Consider telehealth consultation if available",
            "📖 Research reputable health information sources"]

structure Disclaimer where
  title : String
  content : List String
deriving DecidableEq

def disclaimerBlock : Disclaimer :=
  ⟨"⚠️ IMPORTANT MEDICAL DISCLAIMER",
   ["This system is for informational purposes only and does not constitute medical advice.",
    "Always consult with qualified healthcare professionals for proper diagnosis and treatment.",
    "In case of medical emergency, call your local emergency services immediately.",
    "This tool should not replace professional medical consultation, examination, or treatment."]⟩

/-- A value of the recommendation dictionary. -/
inductive RecValue where
  | str : String → RecValue
  | strList : List String → RecValue
  | assess : SeverityAssessment → RecValue
  | disc : Disclaimer → RecValue
deriving DecidableEq

/-- `HealthRecommendationSystem.generate_comprehensive_recommendations` (lines
228-250), the dictionary modelled as a key-value list in the source's key order;
`now` stands for `datetime.now().strftime(...)`. -/
def generate_comprehensive_recommendations (predictions : List Prediction)
    (user_symptoms now : String) : Option (List (String × RecValue)) :=
  match predictions with
  | [] =>
    some [("error", RecValue.str "No predictions available to generate recommendations"),
          ("general_advice",
           RecValue.str "Please consult with a healthcare provider for proper evaluation.")]
  | _ =>
    match generate_severity_assessment predictions,
        generate_lifestyle_recommendations predictions,
        generate_followup_recommendations predictions with
    | some sa, some lr, some fr =>
      some [("timestamp", RecValue.str now),
            ("input_symptoms", RecValue.str user_symptoms),
            ("severity_assessment", RecValue.assess sa),
            ("lifestyle_recommendations", RecValue.strList lr),
            ("dietary_recommendations",
             RecValue.strList (generate_dietary_recommendations predictions)),
            ("self_care_tips", RecValue.strList (generate_self_care_tips predictions)),
            ("warning_signs", RecValue.strList (generate_warning_signs predictions)),
            ("followup_recommendations", RecValue.strList fr),
            ("disclaimer", RecValue.disc disclaimerBlock)]
    | _, _, _ => none

/-- Dictionary key membership. -/
def hasKey (b : List (String × RecValue)) (k : String) : Bool :=
  b.any (fun e => e.1 == k)

/-! ### Theorems about the recommendation deriver -/

/-- C7: called with an empty candidate list, recommend returns (without raising) a
bundle that contains an `error` key and no `severity_assessment` key, for every
symptom text. -/
theorem C7_empty_candidates (user_symptoms now : String) :
    ∃ b, generate_comprehensive_recommendations [] user_symptoms now = some b ∧
      hasKey b "error" = true ∧ hasKey b "severity_assessment" = false := by
  exact ⟨_, rfl, rfl, rfl⟩

theorem foldl_max_mem (key : String → ℤ) (x : String) (xs : List String) :
    xs.foldl (fun best y => if key best < key y then y else best) x ∈ x :: xs := by
  induction xs generalizing x with
  | nil => simp
  | cons y ys ih =>
    rw [List.foldl_cons]
    by_cases h : key x < key y
    · rw [if_pos h]
      rcases List.mem_cons.mp (ih y) with h2 | h2
      · rw [h2]
        exact List.mem_cons_of_mem x (List.mem_cons_self y ys)
      · exact List.mem_cons_of_mem x (List.mem_cons_of_mem y h2)
    · rw [if_neg h]
      rcases List.mem_cons.mp (ih x) with h2 | h2
      · rw [h2]
        exact List.mem_cons_self x (y :: ys)
      · exact List.mem_cons_of_mem x (List.mem_cons_of_mem y h2)

theorem foldl_max_ge (key : String → ℤ) (x : String) (xs : List String) :
    ∀ z ∈ x :: xs,
      key z ≤ key (xs.foldl (fun best y => if key best < key y then y else best) x) := by
  induction xs generalizing x with
  | nil =>
    intro z hz
    rcases List.mem_cons.mp hz with rfl | h2
    · simp
    · cases h2
  | cons y ys ih =>
    intro z hz
    rw [List.foldl_cons]
    by_cases h : key x < key y
    · rw [if_pos h]
      rcases List.mem_cons.mp hz with rfl | hz
      · exact le_of_lt (lt_of_lt_of_le h (ih y y (List.mem_cons_self y ys)))
      · exact ih y z hz
    · rw [if_neg h]
      rcases List.mem_cons.mp hz with heq | hz
      · rw [heq]
        exact ih x x (List.mem_cons_self x ys)
      · rcases List.mem_cons.mp hz with heq | hz
        · rw [heq]
          exact le_trans (le_of_not_lt h) (ih x x (List.mem_cons_self x ys))
        · exact ih x z (List.mem_cons_of_mem x hz)

/-- C2: for every non-empty candidate list whose severities are the catalog tiers,
the assessment exists (no KeyError) and its `overall_severity` is a severity occurring
among the candidates that dominates every candidate under the ordinal priority
Severe = 3 > Moderate = 2 > Mild = 1. -/
theorem C2_overall_severity_max (predictions : List Prediction)
    (hne : predictions ≠ [])
    (hval : ∀ p ∈ predictions,
      p.severity = "Mild" ∨ p.severity = "Moderate" ∨ p.severity = "Severe") :
    ∃ a, generate_severity_assessment predictions = some a ∧
      a.overall_severity ∈ predictions.map (fun p => p.severity) ∧
      ∀ p ∈ predictions,
        severityPriority p.severity ≤ severityPriority a.overall_severity := by
  rcases List.exists_cons_of_ne_nil hne with ⟨q, rest, rfl⟩
  set m := (rest.map (fun p => p.severity)).foldl
    (fun best y => if severityPriority best < severityPriority y then y else best)
    q.severity with hm
  have hmem : m ∈ q.severity :: rest.map (fun p => p.severity) :=
    foldl_max_mem severityPriority q.severity (rest.map (fun p => p.severity))
  have hmem2 : m ∈ (q :: rest).map (fun p => p.severity) := by
    rw [List.map_cons]
    exact hmem
  have hge : ∀ p ∈ q :: rest, severityPriority p.severity ≤ severityPriority m := by
    intro p hp
    refine foldl_max_ge severityPriority q.severity (rest.map (fun s => s.severity))
      p.severity ?_
    rw [← List.map_cons]
    exact List.mem_map_of_mem (fun s => s.severity) hp
  have hmval : m = "Mild" ∨ m = "Moderate" ∨ m = "Severe" := by
    rcases List.mem_map.mp hmem2 with ⟨p, hp, hpm⟩
    rw [← hpm]
    exact hval p hp
  have hact : ∃ info, severity_actions m = some info := by
    rcases hmval with h | h | h <;> rw [h] <;> exact ⟨_, rfl⟩
  rcases hact with ⟨info, hinfo⟩
  refine ⟨⟨m, info.action, info.urgency, some info.timeframe, info.color⟩, ?_, hmem2, hge⟩
  simp only [generate_severity_assessment, List.map_cons, pyMaxBy]
  rw [← hm, hinfo]

/-- The claim's example: severities `[Mild, Severe, Moderate]`. -/
def candSevExM : Prediction :=
  ⟨"Common Cold", 45, "Mild", "Rest", "Fluids", "d1", "s1"⟩

def candSevExS : Prediction :=
  ⟨"Heart Attack", 80, "Severe", "Call emergency", "Light food", "d2", "s2"⟩

def candSevExMo : Prediction :=
  ⟨"Flu", 70, "Moderate", "Bed rest", "Soup", "d3", "s3"⟩

def predsSevEx : List Prediction :=
  [candSevExM, candSevExS, candSevExMo]

/-- Witness for `C2_overall_severity_max` on the `[Mild, Severe, Moderate]` example,
which indeed yields overall severity "Severe". -/
theorem C2_overall_severity_max_witness :
    (generate_severity_assessment predsSevEx).map (fun a => a.overall_severity) =
        some "Severe" ∧
      ∃ a, generate_severity_assessment predsSevEx = some a ∧
        a.overall_severity ∈ predsSevEx.map (fun p => p.severity) ∧
        ∀ p ∈ predsSevEx,
          severityPriority p.severity ≤ severityPriority a.overall_severity :=
  ⟨by decide, C2_overall_severity_max predsSevEx (by decide) (by decide)⟩

theorem selfCareLoop_severe (l : List Prediction) (acc : List String)
    (hs : ∃ p ∈ l, p.severity = "Severe") :
    selfCareLoop l acc = [severeSelfCareMsg] := by
  induction l generalizing acc with
  | nil =>
    rcases hs with ⟨p, hp, _⟩
    cases hp
  | cons q rest ih =>
    show (if q.severity = "Severe" then [severeSelfCareMsg]
      else selfCareLoop rest (acc ++ selfCareTipsFor q.disease)) = [severeSelfCareMsg]
    by_cases h : q.severity = "Severe"
    · rw [if_pos h]
    · rw [if_neg h]
      rcases hs with ⟨p, hp, hsev⟩
      rcases List.mem_cons.mp hp with rfl | hp
      · exact absurd hsev h
      · exact ih _ ⟨p, hp, hsev⟩

/-- C6: whenever some candidate has severity Severe, the self-care tips collapse to
exactly the single seek-immediate-medical-attention entry, regardless of how many
condition-specific tips were accumulated before. -/
theorem C6_severe_single_tip (predictions : List Prediction)
    (hs : ∃ p ∈ predictions, p.severity = "Severe") :
    generate_self_care_tips predictions = [severeSelfCareMsg] := by
  rcases hps : predictions with _ | ⟨q, rest⟩
  · rcases hs with ⟨p, hp, _⟩
    rw [hps] at hp
    cases hp
  · rw [hps] at hs
    show dedup (selfCareLoop (q :: rest) []) = [severeSelfCareMsg]
    rw [selfCareLoop_severe (q :: rest) [] hs]
    rfl

/-- A Mild candidate whose name matches the cold/flu tips group. -/
def candMildCold : Prediction :=
  ⟨"Common Cold", 45, "Mild", "Rest, stay hydrated", "Warm fluids", "cold desc",
   "fever;runny nose;cough"⟩

/-- A Severe candidate. -/
def candSevereHeart : Prediction :=
  ⟨"Heart Attack", 80, "Severe", "Call emergency services", "NA", "heart desc",
   "chest pain"⟩

/-- Witness for `C6_severe_single_tip`: a Mild cold candidate contributes three tips,
yet the Severe candidate collapses the list to the single entry. -/
theorem C6_severe_single_tip_witness :
    generate_self_care_tips [candMildCold, candSevereHeart] = [severeSelfCareMsg] :=
  C6_severe_single_tip [candMildCold, candSevereHeart]
    ⟨candSevereHeart, by decide, rfl⟩

/-- Two Mild candidates sharing the precaution phrase `"Rest"`. -/
def candPrecA : Prediction :=
  ⟨"Condition A", 50, "Mild", "Rest, drink water", "", "descA", "fever"⟩

def candPrecB : Prediction :=
  ⟨"Condition B", 40, "Mild", "Rest", "", "descB", "cough"⟩

/-- C8 evidence: the membership test `precaution not in lifestyle_recs` compares the
UNPREFIXED phrase against a list whose entries all carry the warning-marker prefix, so
it never fires; a precaution shared by two candidates is emitted once per candidate
(here `"⚠️ Rest"` twice), contradicting the claimed de-duplication. The remainder of
the claim (prefix marker, first-seen order, 4 general tips for a Mild/Moderate
severity) is visible in the exact output below. -/
theorem C8_duplicate_precaution :
    generate_lifestyle_recommendations [candPrecA, candPrecB] =
        some (["⚠️ Rest", "⚠️ drink water", "⚠️ Rest"] ++ general_health_tips.take 4) ∧
      (generate_lifestyle_recommendations [candPrecA, candPrecB]).map
        (fun l => l.count "⚠️ Rest") = some 2 := by
  decide

/-- A candidate whose lowercased name contains both a cardiac keyword and "stroke". -/
def candCardiacStroke : Prediction :=
  ⟨"Cardiac Stroke", 70, "Severe", "Call emergency services", "", "cs desc",
   "chest pain;weakness"⟩

/-- C9 counterexample: for the disease name "Cardiac Stroke" the warning-sign
derivation emits the cardiac warning but NOT the stroke warning — the keyword tests
form an if/elif chain, not independent tests, so the first match wins. -/
theorem C9_counterexample :
    (generate_warning_signs [candCardiacStroke]).contains cardiacWarning = true ∧
      (generate_warning_signs [candCardiacStroke]).contains strokeWarning = false := by
  decide

/-- C9 (amended): the keyword rules are evaluated as an if/elif chain, top-down, first
match wins: any candidate whose lowercased disease name contains "heart" or "cardiac"
contributes exactly the cardiac warning — the stroke rule is never reached even when
the name also contains "stroke" — and for a single such candidate the bundle's warning
list never contains the stroke warning. -/
theorem C9_first_match_wins (p : Prediction)
    (hc : (containsSub (pyLowerStr p.disease) "heart" ||
      containsSub (pyLowerStr p.disease) "cardiac") = true) :
    specificWarningFor p.disease = [cardiacWarning] ∧
      generate_warning_signs [p] =
        dedup ([cardiacWarning] ++ general_warning_signs.take 5) ∧
      ¬ strokeWarning ∈ generate_warning_signs [p] := by
  have h1 : specificWarningFor p.disease = [cardiacWarning] := by
    show (if containsSub (pyLowerStr p.disease) "heart" ||
        containsSub (pyLowerStr p.disease) "cardiac" then [cardiacWarning]
      else if containsSub (pyLowerStr p.disease) "stroke" then [strokeWarning]
      else if containsSub (pyLowerStr p.disease) "asthma" then
        ["🚨 Severe difficulty breathing or wheezing"]
      else if containsSub (pyLowerStr p.disease) "diabetes" then
        ["🚨 Extremely high or low blood sugar levels"]
      else []) = [cardiacWarning]
    rw [if_pos hc]
  have h2 : generate_warning_signs [p] =
      dedup ([cardiacWarning] ++ general_warning_signs.take 5) := by
    show dedup (([] ++ specificWarningFor p.disease) ++ general_warning_signs.take 5) =
      dedup ([cardiacWarning] ++ general_warning_signs.take 5)
    rw [List.nil_append, h1]
  refine ⟨h1, h2, ?_⟩
  rw [h2]
  decide

/-- Witness for `C9_first_match_wins` at the "Cardiac Stroke" candidate of the claim. -/
theorem C9_first_match_wins_witness :
    specificWarningFor candCardiacStroke.disease = [cardiacWarning] ∧
      generate_warning_signs [candCardiacStroke] =
        dedup ([cardiacWarning] ++ general_warning_signs.take 5) ∧
      ¬ strokeWarning ∈ generate_warning_signs [candCardiacStroke] :=
  C9_first_match_wins candCardiacStroke (by decide)

end HealthAnalyzer
